import Mathlib

/-!
# Verification of the CSV processing engine

A shallow embedding, over `List Char` strings and exact rational numbers, of
the CSV validation / parsing / serialization helpers and of the operation
branches of the `CSVDataProcessor` tool (`validateCSVData`, `parseCsvRow`,
`parseCSV`, `formatCSV`, and the `summarize`, `clean_missing`,
`detect_outliers`, `remove_duplicates` branches of `_call`, together with the
`_countDuplicates` helper).

Strings are `List Char`; JavaScript `String.prototype.trim` and
`String.prototype.split` are modelled explicitly (in particular
`''.split('\n') == ['']`).  JavaScript numbers are modelled as exact
rationals: `Number(string)` is modelled for the decimal grammar (sign,
digits, fraction, exponent; a whitespace-only string is `0`); the `Infinity`
and radix-prefixed (`0x`/`0o`/`0b`) literal forms, which never occur in the
properties below, are out of scope and mapped to `none` (NaN).  The z-score
comparison `abs((v - mean) / stdDev) > threshold`, whose `stdDev` is a float
square root, is decided in exact arithmetic by the equivalent squared
comparison; the equivalence with the real-number formula is proved
(`zScoreExceeds_iff`).
-/

namespace CsvEngine

/-- Program strings are lists of characters. -/
abbrev Str := List Char

/-- The character class trimmed by JavaScript `String.prototype.trim` (and
skipped by `Number()`), by code point: space, tab, LF, CR, VT, FF, NBSP
(160), Ogham space (5760), the Unicode space separators 8192-8202, LS
(8232), PS (8233), NNBSP (8239), MMSP (8287), ideographic space (12288)
and the BOM (65279). -/
def jsWhitespace (c : Char) : Bool :=
  let n := c.toNat
  n = 32 || n = 9 || n = 10 || n = 13 || n = 11 || n = 12 ||
  n = 160 || n = 5760 || (8192 <= n && n <= 8202) ||
  n = 8232 || n = 8233 || n = 8239 || n = 8287 || n = 12288 || n = 65279

/-- JavaScript `s.trim()`: strip leading and trailing whitespace. -/
def jsTrim (s : Str) : Str :=
  ((s.dropWhile jsWhitespace).reverse.dropWhile jsWhitespace).reverse

/-- JavaScript `s.split(sep)` for a one-character separator: on the empty
string it returns `[""]`, never an empty array. -/
def splitOn (sep : Char) : Str → List Str
  | [] => [[]]
  | c :: rest =>
    match splitOn sep rest with
    | [] => [[]]
    | s :: ss => if c = sep then [] :: s :: ss else (c :: s) :: ss

/-- Join a list of strings with a one-character separator (the inverse
direction of `splitOn`; JavaScript `Array.prototype.join`). -/
def joinWith (sep : Char) : List Str → Str
  | [] => []
  | [s] => s
  | s :: rest => s ++ sep :: joinWith sep rest

/-- A parsed table: `{ headers, data }` as produced by `parseCSV`. -/
structure Table where
  headers : List Str
  data : List (List Str)
deriving DecidableEq, Repr

/-- `cell.replace(/"/g, '""')`: double every internal double quote. -/
def escQuote : Str → Str
  | [] => []
  | c :: rest => if c = '"' then '"' :: '"' :: escQuote rest else c :: escQuote rest

/-- Wrap a cell in double quotes after escaping, as `formatCSV` does for
every header and cell. -/
def quoteCell (s : Str) : Str := '"' :: (escQuote s ++ ['"'])

/-- `formatCSV(headers, data)`: every header and cell individually quoted,
cells comma-joined, rows newline-joined, header row first. -/
def formatCSV (headers : List Str) (data : List (List Str)) : Str :=
  joinWith '\n'
    ((joinWith ',' (headers.map quoteCell)) ::
      data.map (fun row => joinWith ',' (row.map quoteCell)))

/-- The scanning loop of `parseCsvRow`: remaining input, `inQuotes` flag and
the accumulated `currentField`.  A `"` inside quotes followed by another `"`
is an escaped quote; a `,` outside quotes ends the field; every field is
trimmed when pushed. -/
def parseCsvRowGo : Str → Bool → Str → List Str
  | [], _, cur => [jsTrim cur]
  | '"' :: '"' :: rest, true, cur => parseCsvRowGo rest true (cur ++ ['"'])
  | '"' :: rest, true, cur => parseCsvRowGo rest false cur
  | '"' :: rest, false, cur => parseCsvRowGo rest true cur
  | ',' :: rest, true, cur => parseCsvRowGo rest true (cur ++ [','])
  | ',' :: rest, false, cur => jsTrim cur :: parseCsvRowGo rest false []
  | c :: rest, inQ, cur => parseCsvRowGo rest inQ (cur ++ [c])

/-- `parseCsvRow(rowString)`: quote-aware split of one line into trimmed
fields. -/
def parseCsvRow (s : Str) : List Str := parseCsvRowGo s false []

/-- `parseCSV(csvString)`: trim, split into lines, parse the first line as
headers and the rest as rows, and keep only the rows whose length matches the
header count.  The `lines.length === 0` guard of the source is kept as the
(dead, see `splitOn_ne_nil`) first match arm. -/
def parseCSV (s : Str) : Table :=
  match splitOn '\n' (jsTrim s) with
  | [] => ⟨[], []⟩
  | line0 :: rest =>
    let headers := parseCsvRow line0
    let data := rest.map parseCsvRow
    ⟨headers, data.filter (fun row => row.length == headers.length)⟩

/-! ## Validation (`validateCSVData`) -/

/-- The distinct failure results of `validateCSVData`, one per `return`
statement of the source (messages elided; `noHeaderRow` and `noColumns`
correspond to the two guards that are dead code because `split` never
returns an empty array). -/
inductive ValidationError
  | emptyData
  | tooLarge
  | noHeaderRow
  | noColumns
  | tooManyColumns
  | tooManyRows
  | unsafeContent
deriving DecidableEq, Repr

/-- ASCII lowercasing, modelling the `/i` regexp flag on the all-ASCII
deny-list patterns. -/
def toLowerStr (s : Str) : Str := s.map Char.toLower

/-- `needle` occurs at the start of the second argument. -/
def isPrefixStr : Str → Str → Bool
  | [], _ => true
  | _ :: _, [] => false
  | a :: as, b :: bs => a = b && isPrefixStr as bs

/-- Substring occurrence (JavaScript `RegExp.prototype.test` for a literal
pattern). -/
def containsSub (needle : Str) : Str → Bool
  | [] => isPrefixStr needle []
  | c :: rest => isPrefixStr needle (c :: rest) || containsSub needle rest

/-- The `dangerousPatterns` scan: the six case-insensitive literal patterns
of the source, tested against the full raw text. -/
def matchesDangerous (s : Str) : Bool :=
  let l := toLowerStr s
  containsSub ("<script".data) l || containsSub ("javascript:".data) l ||
  containsSub ("eval(".data) l || containsSub ("function(".data) l ||
  containsSub ("settimeout".data) l || containsSub ("document.".data) l

/-- `validateCSVData(csvData)`: empty check, 15MB size check, line split,
column-count and row-count limits, then the deny-list scan.  `none` is the
`{ valid: true }` result.  The float comparison `length / 2^20 > 15` is
exact at these magnitudes and is modelled as `15 * 2^20 < length`. -/
def validateCSVData (csvData : Str) : Option ValidationError :=
  if csvData = [] ∨ jsTrim csvData = [] then some .emptyData
  else if 15 * 1048576 < csvData.length then some .tooLarge
  else
    let lines := splitOn '\n' (jsTrim csvData)
    if lines.length < 1 then some .noHeaderRow
    else
      let headers := (splitOn ',' (lines.headD [])).map jsTrim
      if headers.length = 0 then some .noColumns
      else if 1000 < headers.length then some .tooManyColumns
      else if 200000 < lines.length then some .tooManyRows
      else if matchesDangerous csvData then some .unsafeContent
      else none

/-! ## `Number(string)` on the decimal grammar -/

/-- Decimal digit test. -/
def isDigitCh (c : Char) : Bool := '0' ≤ c && c ≤ '9'

/-- Value of a digit string. -/
def digitsVal (s : Str) : Nat := s.foldl (fun n c => 10 * n + (c.toNat - 48)) 0

/-- Parse `digits`, `digits.digits` or `.digits` off the front; returns the
value and the unconsumed tail. -/
def parseMantissa (s : Str) : Option (ℚ × Str) :=
  let ip := s.takeWhile isDigitCh
  let r1 := s.dropWhile isDigitCh
  match r1 with
  | '.' :: r2 =>
    let fp := r2.takeWhile isDigitCh
    let r3 := r2.dropWhile isDigitCh
    if ip = [] && fp = [] then none
    else some ((digitsVal (ip ++ fp) : ℚ) / (10 : ℚ) ^ fp.length, r3)
  | _ => if ip = [] then none else some ((digitsVal ip : ℚ), r1)

/-- Parse an optional exponent part (`e`/`E`, optional sign, digits); the
whole rest of the string must be consumed, otherwise the literal is invalid
(NaN). -/
def parseExponentPart : Str → Option Int
  | [] => some 0
  | c :: rest =>
    if c = 'e' ∨ c = 'E' then
      match rest with
      | '+' :: ds => if ds ≠ [] ∧ ds.all isDigitCh then some (digitsVal ds) else none
      | '-' :: ds => if ds ≠ [] ∧ ds.all isDigitCh then some (-(digitsVal ds : Int)) else none
      | ds => if ds ≠ [] ∧ ds.all isDigitCh then some (digitsVal ds) else none
    else none

/-- Unsigned numeric literal: mantissa followed by exponent. -/
def jsToNumberUnsigned (s : Str) : Option ℚ :=
  match parseMantissa s with
  | none => none
  | some (m, rest) =>
    match parseExponentPart rest with
    | none => none
    | some e => some (m * (10 : ℚ) ^ e)

/-- `Number(s)` for a string, as an exact rational; `none` is NaN.  A
whitespace-only string converts to `0`.  The `Infinity` and radix-prefixed
forms are out of scope of this embedding and also yield `none`. -/
def jsToNumber (s : Str) : Option ℚ :=
  match jsTrim s with
  | [] => some 0
  | '+' :: r => jsToNumberUnsigned r
  | '-' :: r => (jsToNumberUnsigned r).map (fun q => -q)
  | r => jsToNumberUnsigned r

/-! ## The `summarize` branch -/

/-- Insertion step of the ascending sort. -/
def sortedInsert (x : ℚ) : List ℚ → List ℚ
  | [] => [x]
  | y :: ys => if x ≤ y then x :: y :: ys else y :: sortedInsert x ys

/-- `[...numericValues].sort((a, b) => a - b)`: ascending sort. -/
def sortAsc (l : List ℚ) : List ℚ := l.foldr sortedInsert []

/-- `Math.min(...l)`; the branch only evaluates it on non-empty lists, so the
`[]` value is irrelevant. -/
def listMin : List ℚ → ℚ
  | [] => 0
  | x :: xs => xs.foldl min x

/-- `Math.max(...l)`; only evaluated on non-empty lists. -/
def listMax : List ℚ → ℚ
  | [] => 0
  | x :: xs => xs.foldl max x

/-- `new Set(values)` keeps first occurrences in insertion order. -/
def firstUniques (seen : List Str) : List Str → List Str
  | [] => []
  | v :: rest =>
    if v ∈ seen then firstUniques seen rest
    else v :: firstUniques (v :: seen) rest

/-- The two reply shapes of the `summarize` branch (statistics kept as exact
numbers; the `toFixed(2)` display rounding of the source is presentation
only and not modelled), plus the unreachable-by-dispatch missing-column
reply. -/
inductive SummarizeResult
  | numeric (count numericCount : Nat) (mean median minV maxV : ℚ)
  | categorical (count uniqueCount : Nat) (samples : List Str)
  | columnNotFound
deriving DecidableEq, Repr

/-- The `summarize` branch of `_call`: non-empty values of the target
column, their numeric subset; the numeric report when at least one value is
numeric, otherwise the unique-value report with up to 5 samples. -/
def summarizeColumn (headers : List Str) (data : List (List Str))
    (column : Str) : SummarizeResult :=
  match headers.findIdx? (fun h => h == column) with
  | none => .columnNotFound
  | some columnIndex =>
    let values := (data.map (fun row => row.getD columnIndex [])).filter
      (fun v => !v.isEmpty)
    let numericValues := values.filterMap jsToNumber
    if 0 < numericValues.length then
      let n := numericValues.length
      let mean := numericValues.sum / (n : ℚ)
      let sorted := sortAsc numericValues
      let median :=
        if n % 2 = 0 then (sorted.getD (n / 2 - 1) 0 + sorted.getD (n / 2) 0) / 2
        else sorted.getD (n / 2) 0
      .numeric values.length n mean median (listMin numericValues) (listMax numericValues)
    else
      let uniqueValues := firstUniques [] values
      .categorical values.length uniqueValues.length (uniqueValues.take 5)

/-! ## The `clean_missing` branch -/

/-- `!row[columnIndex] || row[columnIndex].trim() === ''`: empty or
whitespace-only cell. -/
def cellMissing (row : List Str) (columnIndex : Nat) : Bool :=
  (row.getD columnIndex []).isEmpty || (jsTrim (row.getD columnIndex [])).isEmpty

/-- The two reply shapes of the `clean_missing` branch: dropping rows
re-serializes the cleaned table, while the imputation methods report counts
and carry the raw input forward as `processed_csv_data`. -/
inductive CleanMissingResult
  | dropped (originalRows missingRows remainingRows removedRows : Nat)
      (processedCsvData : Str)
  | imputed (originalRows missingRows : Nat) (method : Str) (processedCsvData : Str)
  | columnNotFound
deriving DecidableEq, Repr

/-- The `clean_missing` branch of `_call`. -/
def cleanMissing (csvData : Str) (headers : List Str) (data : List (List Str))
    (column method : Str) : CleanMissingResult :=
  match headers.findIdx? (fun h => h == column) with
  | none => .columnNotFound
  | some columnIndex =>
    let missingCount := (data.filter (fun row => cellMissing row columnIndex)).length
    if method = ("drop".data) then
      let cleanedData := data.filter (fun row => !cellMissing row columnIndex)
      .dropped data.length missingCount cleanedData.length
        (data.length - cleanedData.length) (formatCSV headers cleanedData)
    else
      .imputed data.length missingCount method csvData

/-! ## The `detect_outliers` branch -/

/-- The z-score comparison `Math.abs((v - mean) / stdDev) > threshold` of the
source, decided in exact arithmetic over the squared quantities
(`variance = stdDev²`).  When the variance is `0` every value equals the
mean, the source computes `0 / 0 = NaN`, and `NaN > threshold` is `false`;
when the variance is positive and the threshold non-negative the comparison
is equivalent to `threshold² · variance < (v - mean)²`; a negative threshold
is below every absolute value.  `zScoreExceeds_iff` proves the equivalence
with the real-number formula. -/
def zScoreExceeds (d variance t : ℚ) : Bool :=
  if variance = 0 then false
  else if t < 0 then true
  else t ^ 2 * variance < d ^ 2

/-- The reply shapes of the `detect_outliers` branch: the explicit
non-numeric-column message, or the statistics report (the full outlier list
is kept; the source displays its length and first five items). -/
inductive OutlierResult
  | notNumeric
  | report (totalValues : Nat) (mean variance : ℚ) (outliers : List ℚ)
  | columnNotFound
deriving DecidableEq, Repr

/-- The `detect_outliers` branch of `_call`: values of the target column
that parse as numbers, population mean and variance, and the values whose
z-score magnitude exceeds the threshold. -/
def detectOutliers (headers : List Str) (data : List (List Str))
    (column : Str) (threshold : ℚ) : OutlierResult :=
  match headers.findIdx? (fun h => h == column) with
  | none => .columnNotFound
  | some columnIndex =>
    let numericValues := (data.map (fun row => row.getD columnIndex [])).filterMap jsToNumber
    if numericValues.length = 0 then .notNumeric
    else
      let n := numericValues.length
      let mean := numericValues.sum / (n : ℚ)
      let variance := (numericValues.map (fun b => (b - mean) ^ 2)).sum / (n : ℚ)
      let outliers := numericValues.filter
        (fun v => zScoreExceeds (v - mean) variance threshold)
      .report n mean variance outliers

/-! ## The `remove_duplicates` branch and `_countDuplicates` -/

/-- The duplicate key of a row: per-cell-trimmed cells joined with `|`. -/
def rowKey (row : List Str) : Str := joinWith '|' (row.map jsTrim)

/-- The `Map`-building loop: keep a row iff its key was not seen before
(insertion order is preserved, as `Array.from(map.values())` does). -/
def dedupeRowsGo (seen : List Str) : List (List Str) → List (List Str)
  | [] => []
  | row :: rest =>
    if rowKey row ∈ seen then dedupeRowsGo seen rest
    else row :: dedupeRowsGo (rowKey row :: seen) rest

/-- The unique rows kept by the `remove_duplicates` branch. -/
def dedupeRows (data : List (List Str)) : List (List Str) := dedupeRowsGo [] data

/-- The two reply shapes of the `remove_duplicates` branch: the JSON
summary-plus-payload object when something was removed, the plain
informational string otherwise. -/
inductive DedupResult
  | cleaned (removed kept : Nat) (processedCsvData : Str)
  | noDuplicates (originalRows uniqueRows removed : Nat)
deriving DecidableEq, Repr

/-- The `remove_duplicates` branch of `_call`. -/
def removeDuplicates (headers : List Str) (data : List (List Str)) : DedupResult :=
  let cleanedData := dedupeRows data
  let removedCount := data.length - cleanedData.length
  if 0 < removedCount then
    .cleaned removedCount cleanedData.length (formatCSV headers cleanedData)
  else
    .noDuplicates data.length cleanedData.length removedCount

/-- `_countDuplicates(data)`: count the rows whose key was already seen. -/
def countDuplicatesGo (seen : List Str) : List (List Str) → Nat
  | [] => 0
  | row :: rest =>
    if rowKey row ∈ seen then 1 + countDuplicatesGo seen rest
    else countDuplicatesGo (rowKey row :: seen) rest

/-- `_countDuplicates(data)`. -/
def countDuplicates (data : List (List Str)) : Nat := countDuplicatesGo [] data

/-- A tool invocation either fails validation with an error or reaches its
operation branch. -/
inductive OpResult (α : Type)
  | error (e : ValidationError)
  | ok (r : α)
deriving DecidableEq, Repr

/-- The full `remove_duplicates` pipeline of `_call`: validate, parse, then
run the branch. -/
def removeDuplicatesOp (csvData : Str) : OpResult DedupResult :=
  match validateCSVData csvData with
  | some e => .error e
  | none =>
    let t := parseCSV csvData
    .ok (removeDuplicates t.headers t.data)

/-! ## Basic lemmas about the string model -/

set_option maxRecDepth 200000

/-- `split` never returns an empty array: the two `length === 0` guards of
the source are dead code. -/
theorem splitOn_ne_nil (sep : Char) (s : Str) : splitOn sep s ≠ [] := by
  cases s with
  | nil => simp [splitOn]
  | cons c rest =>
    cases h : splitOn sep rest with
    | nil => simp [splitOn, h]
    | cons s ss =>
      simp only [splitOn, h]
      split <;> simp

/-! ## The duplicate key machinery (`remove_duplicates`, `_countDuplicates`) -/

/-- Every row of the table is accounted for either by the kept unique rows
or by the duplicate count, for any initial set of seen keys. -/
theorem dedupeRowsGo_length_add_count (seen : List Str) (data : List (List Str)) :
    data.length = (dedupeRowsGo seen data).length + countDuplicatesGo seen data := by
  induction data generalizing seen with
  | nil => rfl
  | cons row rest ih =>
    by_cases h : rowKey row ∈ seen
    · simp only [dedupeRowsGo, countDuplicatesGo, if_pos h, List.length_cons]
      rw [ih seen]; omega
    · simp only [dedupeRowsGo, countDuplicatesGo, if_neg h, List.length_cons]
      rw [ih (rowKey row :: seen)]; omega

/-- Rows kept by the dedupe loop have keys outside the seen set. -/
theorem dedupeRowsGo_key_not_seen (seen : List Str) (data : List (List Str)) :
    ∀ r ∈ dedupeRowsGo seen data, rowKey r ∉ seen := by
  induction data generalizing seen with
  | nil => simp [dedupeRowsGo]
  | cons row rest ih =>
    by_cases h : rowKey row ∈ seen
    · simpa [dedupeRowsGo, h] using ih seen
    · intro r hr
      simp only [dedupeRowsGo, if_neg h, List.mem_cons] at hr
      rcases hr with rfl | hr
      · exact h
      · intro hseen
        exact ih (rowKey row :: seen) r hr (by simp [hseen])

/-- The keys of the kept rows are pairwise distinct. -/
theorem dedupeRowsGo_keys_nodup (seen : List Str) (data : List (List Str)) :
    ((dedupeRowsGo seen data).map rowKey).Nodup := by
  induction data generalizing seen with
  | nil => simp [dedupeRowsGo]
  | cons row rest ih =>
    by_cases h : rowKey row ∈ seen
    · simpa [dedupeRowsGo, h] using ih seen
    · simp only [dedupeRowsGo, if_neg h, List.map_cons, List.nodup_cons]
      refine ⟨?_, ih _⟩
      intro hmem
      rcases List.mem_map.mp hmem with ⟨r, hr, hkey⟩
      have := dedupeRowsGo_key_not_seen (rowKey row :: seen) rest r hr
      simp [hkey] at this

/-- On a table whose row keys are already pairwise distinct and disjoint
from the seen set, the dedupe loop keeps everything. -/
theorem dedupeRowsGo_of_keys_fresh (seen : List Str) (data : List (List Str))
    (hnodup : (data.map rowKey).Nodup) (hdisj : ∀ r ∈ data, rowKey r ∉ seen) :
    dedupeRowsGo seen data = data := by
  induction data generalizing seen with
  | nil => rfl
  | cons row rest ih =>
    have h : rowKey row ∉ seen := hdisj row (by simp)
    simp only [dedupeRowsGo, if_neg h, List.cons.injEq, true_and]
    simp only [List.map_cons, List.nodup_cons] at hnodup
    refine ih (rowKey row :: seen) hnodup.2 ?_
    intro r hr
    simp only [List.mem_cons]
    rintro (hk | hk)
    · exact hnodup.1 (hk ▸ List.mem_map_of_mem rowKey hr)
    · exact hdisj r (by simp [hr]) hk

/-- The dedupe loop only consults the seen set through membership. -/
theorem dedupeRowsGo_congr (s1 s2 : List Str) (h : ∀ k, k ∈ s1 ↔ k ∈ s2)
    (data : List (List Str)) : dedupeRowsGo s1 data = dedupeRowsGo s2 data := by
  induction data generalizing s1 s2 with
  | nil => rfl
  | cons row rest ih =>
    by_cases hm : rowKey row ∈ s1
    · simp only [dedupeRowsGo, if_pos hm, if_pos ((h _).mp hm)]
      exact ih s1 s2 h
    · have hm2 : rowKey row ∉ s2 := fun c => hm ((h _).mpr c)
      simp only [dedupeRowsGo, if_neg hm, if_neg hm2, List.cons.injEq, true_and]
      exact ih _ _ (by intro k; simp [h k])

/-- Adding a key to the seen set is the same as pre-filtering the rows that
carry that key. -/
theorem dedupeRowsGo_cons (k : Str) (seen : List Str) (data : List (List Str)) :
    dedupeRowsGo (k :: seen) data =
      dedupeRowsGo seen (data.filter (fun r => !(rowKey r == k))) := by
  induction data generalizing seen with
  | nil => rfl
  | cons row rest ih =>
    by_cases hk : rowKey row = k
    · have hcond : (!(rowKey row == k)) = false := by simp [hk]
      simp only [dedupeRowsGo, if_pos (show rowKey row ∈ k :: seen by simp [hk]),
        List.filter_cons, hcond, Bool.false_eq_true, if_false]
      exact ih seen
    · have hcond : (!(rowKey row == k)) = true := by simpa using hk
      by_cases hm : rowKey row ∈ seen
      · have hins : rowKey row ∈ k :: seen := by simp [hm]
        simp only [dedupeRowsGo, if_pos hins, List.filter_cons, hcond, if_true]
        rw [ih seen]
        simp [dedupeRowsGo, hm]
      · have hnm : rowKey row ∉ k :: seen := by simp [hk, hm]
        simp only [dedupeRowsGo, if_neg hnm, List.filter_cons, hcond, if_true]
        simp only [dedupeRowsGo, if_neg hm, List.cons.injEq, true_and]
        rw [dedupeRowsGo_congr (rowKey row :: k :: seen) (k :: rowKey row :: seen)
          (by intro x; simp; tauto) rest]
        exact ih (rowKey row :: seen)

/-- **C7**: for every table, the number of data rows equals the number of
unique rows kept by `remove_duplicates` plus the duplicate count reported by
`_countDuplicates`; both use the same pipe-joined trimmed row key. -/
theorem C7_duplicate_count_invariant (data : List (List Str)) :
    data.length = (dedupeRows data).length + countDuplicates data :=
  dedupeRowsGo_length_add_count [] data

/-- **C6**: duplicate removal is idempotent: deduplicating twice yields the
same rows as deduplicating once, and a second `remove_duplicates` pass over
the deduplicated rows always reports zero removed rows. -/
theorem C6_dedupe_idempotent (headers : List Str) (data : List (List Str)) :
    dedupeRows (dedupeRows data) = dedupeRows data ∧
    removeDuplicates headers (dedupeRows data) =
      .noDuplicates (dedupeRows data).length (dedupeRows data).length 0 := by
  have hid : dedupeRows (dedupeRows data) = dedupeRows data :=
    dedupeRowsGo_of_keys_fresh [] _ (dedupeRowsGo_keys_nodup [] data) (by simp)
  refine ⟨hid, ?_⟩
  simp [removeDuplicates, dedupeRows] at hid ⊢
  simp [hid]

/-- **C5**: two rows are duplicates exactly when their pipe-joined,
per-cell-trimmed keys coincide: the kept rows are the first row followed by
the deduplication of the remaining rows with every row of the same key
removed (so the first occurrence of each key survives, in order).  On
`"a,b\n1,2\n1,2\n3,4"` the operation reports 1 duplicate removed and 2
unique rows kept, with the payload containing exactly the rows `1,2` and
`3,4`; when nothing is removed it returns the plain informational shape. -/
theorem C5_remove_duplicates_spec :
    (dedupeRows ([] : List (List Str)) = [] ∧
      ∀ (row : List Str) (rest : List (List Str)),
        dedupeRows (row :: rest) =
          row :: dedupeRows (rest.filter (fun r => !(rowKey r == rowKey row)))) ∧
    removeDuplicatesOp ("a,b\n1,2\n1,2\n3,4".data) =
      .ok (.cleaned 1 2 ("\"a\",\"b\"\n\"1\",\"2\"\n\"3\",\"4\"".data)) ∧
    removeDuplicatesOp ("a,b\n1,2\n3,4".data) = .ok (.noDuplicates 2 2 0) := by
  refine ⟨⟨rfl, ?_⟩, by decide, by decide⟩
  intro row rest
  show dedupeRowsGo [] (row :: rest) = _
  simp only [dedupeRowsGo, if_neg (List.not_mem_nil (rowKey row)), List.cons.injEq,
    true_and]
  exact dedupeRowsGo_cons _ _ _

/-! ## Degenerate documents (`parseCSV`) -/

/-- **C4** (documents the code bug): parsing the completely empty document
does NOT return an empty header list: `''.split('\n')` is `['']`, so the
`lines.length === 0` guard that would return `{headers: [], rows: []}` is
dead and the result is one empty header.  A header-only document does
return the parsed headers with an empty row list. -/
theorem C4_empty_document_behavior :
    parseCSV [] = ⟨[[]], []⟩ ∧
    parseCSV ("a,b".data) = ⟨["a".data, "b".data], []⟩ := by decide

/-! ## `detect_outliers` on a non-numeric column -/

/-- **C9**: when zero values of the target column parse as numbers,
`detect_outliers` answers with the explicit non-numeric-column message, not
a zero-outlier statistics report. -/
theorem C9_outliers_non_numeric (headers : List Str) (data : List (List Str))
    (column : Str) (threshold : ℚ) (columnIndex : Nat)
    (hc : headers.findIdx? (fun h => h == column) = some columnIndex)
    (hz : (data.map (fun row => row.getD columnIndex [])).filterMap jsToNumber = []) :
    detectOutliers headers data column threshold = .notNumeric := by
  simp only [detectOutliers, hc, hz]
  simp

/-- Witness for `C9_outliers_non_numeric`: a column of the two literal
values `p`, `q`, neither of which is numeric. -/
theorem C9_outliers_non_numeric_witness :
    detectOutliers [("a".data)] [["p".data], ["q".data]] ("a".data) 3 = .notNumeric :=
  C9_outliers_non_numeric _ _ _ _ 0 (by decide) (by decide)

/-! ## `clean_missing` with an imputation method -/

/-- **C10**: a `clean_missing` invocation with any method other than
`"drop"` reports the row and missing-value counts but performs no value
substitution: the returned `processed_csv_data` is exactly the original
input string. -/
theorem C10_clean_missing_non_drop (csvData : Str) (headers : List Str)
    (data : List (List Str)) (column method : Str) (columnIndex : Nat)
    (hc : headers.findIdx? (fun h => h == column) = some columnIndex)
    (hm : method ≠ ("drop".data)) :
    cleanMissing csvData headers data column method =
      .imputed data.length
        ((data.filter (fun row => cellMissing row columnIndex)).length) method csvData := by
  simp [cleanMissing, hc, hm]

/-- Witness for `C10_clean_missing_non_drop`: method `mean` on a column
with one missing cell carries the raw input through unchanged. -/
theorem C10_clean_missing_non_drop_witness :
    cleanMissing ("h\n1\n\n2".data) [("h".data)] [["1".data], [[]], ["2".data]]
      ("h".data) ("mean".data) =
      .imputed 3
        ((([["1".data], [[]], ["2".data]] : List (List Str)).filter
          (fun row => cellMissing row 0)).length) ("mean".data) ("h\n1\n\n2".data) :=
  C10_clean_missing_non_drop _ _ _ _ _ 0 (by decide) (by decide)

/-! ## The `summarize` branch condition -/

/-- **C2** counterexample: in column `a` of the table with rows `1` and
`x`, the non-empty value `x` does not parse as a number, yet `summarize`
takes the numeric branch (computing its statistics over the single numeric
value): the branch is NOT taken "iff every non-empty value parses as a
number". -/
theorem C2_counterexample :
    jsToNumber ("x".data) = none ∧
    ("x".data) ∈ (([["1".data], ["x".data]].map (fun row => row.getD 0 [])).filter
      (fun v => !v.isEmpty)) ∧
    summarizeColumn [("a".data)] [["1".data], ["x".data]] ("a".data) =
      .numeric 2 1 1 1 1 1 :=
  ⟨by decide, by decide, by with_unfolding_all decide⟩

/-- **C2** (amended): `summarize` takes the numeric branch iff at least one
non-empty value of the target column parses as a number, computing count,
mean, median, min and max over the parseable values only; only when no
non-empty value parses does it report count, distinct-value count and up to
five sample values.  The median of an even number of numeric values is the
average of the two middle values of the ascending sort, as the even-count
scenario `[1,2,3,4] ↦ median 5/2` checks concretely. -/
theorem C2_summarize_branches (headers : List Str) (data : List (List Str))
    (column : Str) (columnIndex : Nat) (values : List Str)
    (hc : headers.findIdx? (fun h => h == column) = some columnIndex)
    (hv : values = (data.map (fun row => row.getD columnIndex [])).filter
      (fun v => !v.isEmpty)) :
    (((∃ v ∈ values, jsToNumber v ≠ none) →
      summarizeColumn headers data column =
        .numeric values.length (values.filterMap jsToNumber).length
          ((values.filterMap jsToNumber).sum / (((values.filterMap jsToNumber).length : ℚ)))
          (if (values.filterMap jsToNumber).length % 2 = 0 then
            ((sortAsc (values.filterMap jsToNumber)).getD
                ((values.filterMap jsToNumber).length / 2 - 1) 0 +
              (sortAsc (values.filterMap jsToNumber)).getD
                ((values.filterMap jsToNumber).length / 2) 0) / 2
          else (sortAsc (values.filterMap jsToNumber)).getD
            ((values.filterMap jsToNumber).length / 2) 0)
          (listMin (values.filterMap jsToNumber))
          (listMax (values.filterMap jsToNumber))) ∧
    ((∀ v ∈ values, jsToNumber v = none) →
      summarizeColumn headers data column =
        .categorical values.length (firstUniques [] values).length
          ((firstUniques [] values).take 5))) ∧
    summarizeColumn [("a".data)] [["1".data], ["2".data], ["3".data], ["4".data]]
      ("a".data) = .numeric 4 4 (5/2) (5/2) 1 4 := by
  subst hv
  refine ⟨⟨?_, ?_⟩, by with_unfolding_all decide⟩
  · intro hex
    have hne : ((data.map (fun row => row.getD columnIndex [])).filter
        (fun v => !v.isEmpty)).filterMap jsToNumber ≠ [] := by
      intro hnil
      rcases hex with ⟨v, hvmem, hvnum⟩
      exact hvnum (List.filterMap_eq_nil_iff.mp hnil v hvmem)
    have hpos : 0 < (((data.map (fun row => row.getD columnIndex [])).filter
        (fun v => !v.isEmpty)).filterMap jsToNumber).length :=
      List.length_pos.mpr hne
    simp only [summarizeColumn, hc, if_pos hpos]
  · intro hall
    have hnil : ((data.map (fun row => row.getD columnIndex [])).filter
        (fun v => !v.isEmpty)).filterMap jsToNumber = [] :=
      List.filterMap_eq_nil_iff.mpr hall
    simp only [summarizeColumn, hc, hnil, List.length_nil, Nat.lt_irrefl, if_false]

/-- Witness for `C2_summarize_branches`: the even-count numeric column
`[1,2,3,4]`. -/
theorem C2_summarize_branches_witness :
    summarizeColumn [("a".data)] [["1".data], ["2".data], ["3".data], ["4".data]]
      ("a".data) = .numeric 4 4 (5/2) (5/2) 1 4 :=
  (C2_summarize_branches [("a".data)] [["1".data], ["2".data], ["3".data], ["4".data]]
    ("a".data) 0 _ (by decide) rfl).2

/-! ## The validator deny-list -/

/-- Characters of a prefix occur in the string. -/
theorem mem_of_isPrefixStr (n h : Str) (hp : isPrefixStr n h = true) :
    ∀ c ∈ n, c ∈ h := by
  induction n generalizing h with
  | nil => simp
  | cons a as ih =>
    cases h with
    | nil => simp [isPrefixStr] at hp
    | cons b bs =>
      simp only [isPrefixStr, Bool.and_eq_true, decide_eq_true_eq] at hp
      intro c hc
      rcases List.mem_cons.mp hc with rfl | hc
      · simp [hp.1]
      · exact List.mem_cons_of_mem _ (ih bs hp.2 c hc)

/-- Characters of a matched pattern occur in the scanned text. -/
theorem mem_of_containsSub (n h : Str) (hc : containsSub n h = true) :
    ∀ c ∈ n, c ∈ h := by
  induction h with
  | nil =>
    cases n with
    | nil => simp
    | cons a as => simp [containsSub, isPrefixStr] at hc
  | cons b bs ih =>
    simp only [containsSub, Bool.or_eq_true] at hc
    rcases hc with hp | hc
    · exact mem_of_isPrefixStr n (b :: bs) hp
    · exact fun c hcn => List.mem_cons_of_mem _ (ih hc c hcn)

/-- A string holding a non-whitespace character does not trim to empty. -/
theorem jsTrim_ne_nil_of_mem (s : Str) (c : Char) (hc : c ∈ s)
    (hw : jsWhitespace c = false) : jsTrim s ≠ [] := by
  intro h
  have h1 : (s.dropWhile jsWhitespace).reverse.dropWhile jsWhitespace = [] :=
    List.reverse_eq_nil_iff.mp h
  have h2 : ∀ x ∈ s.dropWhile jsWhitespace, jsWhitespace x := by
    intro x hx
    exact List.dropWhile_eq_nil_iff.mp h1 x (List.mem_reverse.mpr hx)
  have h3 : ∀ x ∈ s, jsWhitespace x := by
    intro x hx
    rw [← List.takeWhile_append_dropWhile (p := jsWhitespace) (l := s)] at hx
    rcases List.mem_append.mp hx with hx | hx
    · exact List.mem_takeWhile_imp hx
    · exact h2 x hx
  rw [h3 c hc] at hw
  exact Bool.noConfusion hw

/-- The possible code points of a whitespace character. -/
theorem whitespace_toNat (c : Char) (h : jsWhitespace c = true) :
    c.toNat = 32 ∨ c.toNat = 9 ∨ c.toNat = 10 ∨ c.toNat = 13 ∨ c.toNat = 11 ∨
    c.toNat = 12 ∨ 160 ≤ c.toNat := by
  simp only [jsWhitespace, Bool.or_eq_true, decide_eq_true_eq, Bool.and_eq_true] at h
  omega

/-- `toLower` either fixes a character or acts on an ASCII capital. -/
theorem toLower_eq_cases (c x : Char) (h : Char.toLower c = x) :
    c = x ∨ (65 ≤ c.toNat ∧ c.toNat ≤ 90) := by
  by_cases hu : 65 ≤ c.toNat ∧ c.toNat ≤ 90
  · exact Or.inr hu
  · refine Or.inl ?_
    rw [← h]
    unfold Char.toLower
    rw [if_neg (fun hcon => hu ⟨hcon.1, hcon.2⟩)]

/-- A character of the lowercased text that is not whitespace after
lowercasing witnesses a non-whitespace character of the original text. -/
theorem exists_non_ws_of_mem_lower (s : Str) (x : Char) (hx : x ∈ toLowerStr s)
    (hxw : jsWhitespace x = false) : ∃ c ∈ s, jsWhitespace c = false := by
  rcases List.mem_map.mp hx with ⟨c, hc, hlow⟩
  refine ⟨c, hc, ?_⟩
  rcases toLower_eq_cases c x hlow with rfl | hu
  · exact hxw
  · cases hw : jsWhitespace c with
    | false => rfl
    | true =>
      have := whitespace_toNat c hw
      omega

/-- Text matching the deny-list holds a non-whitespace character (each
pattern's first character is neither whitespace nor the image of one under
lowercasing). -/
theorem matchesDangerous_has_non_ws (s : Str) (h : matchesDangerous s = true) :
    ∃ c ∈ s, jsWhitespace c = false := by
  simp only [matchesDangerous, Bool.or_eq_true] at h
  rcases h with ((((h | h) | h) | h) | h) | h
  · exact exists_non_ws_of_mem_lower s '<'
      (mem_of_containsSub _ _ h '<' (by decide)) (by decide)
  · exact exists_non_ws_of_mem_lower s 'j'
      (mem_of_containsSub _ _ h 'j' (by decide)) (by decide)
  · exact exists_non_ws_of_mem_lower s 'e'
      (mem_of_containsSub _ _ h 'e' (by decide)) (by decide)
  · exact exists_non_ws_of_mem_lower s 'f'
      (mem_of_containsSub _ _ h 'f' (by decide)) (by decide)
  · exact exists_non_ws_of_mem_lower s 's'
      (mem_of_containsSub _ _ h 's' (by decide)) (by decide)
  · exact exists_non_ws_of_mem_lower s 'd'
      (mem_of_containsSub _ _ h 'd' (by decide)) (by decide)

/-- **C3** counterexample: a document containing both template-engine
delimiters and an inline event-handler attribute passes validation: those
two pattern families are not on the code's deny-list. -/
theorem C3_counterexample :
    containsSub ("\x7b\x7b".data) ("a,b\n\x7b\x7bx\x7d\x7d,onerror=1".data) = true ∧
    containsSub ("onerror=".data) ("a,b\n\x7b\x7bx\x7d\x7d,onerror=1".data) = true ∧
    validateCSVData ("a,b\n\x7b\x7bx\x7d\x7d,onerror=1".data) = none := by decide

/-- **C3** (amended): the deny-list consists of the six case-insensitive
patterns `<script`, `javascript:`, `eval(`, `function(`, `setTimeout`,
`document.` (not event-handler attributes or template delimiters).  No
input matching any of them validates, and inside the size/column/row
limits the failure is exactly the generic unsafe-content error. -/
theorem C3_validator_denylist (csvData : Str)
    (hm : matchesDangerous csvData = true) :
    validateCSVData csvData ≠ none ∧
    (csvData.length ≤ 15 * 1048576 →
      ((splitOn ',' ((splitOn '\n' (jsTrim csvData)).headD [])).map jsTrim).length ≤ 1000 →
      (splitOn '\n' (jsTrim csvData)).length ≤ 200000 →
      validateCSVData csvData = some .unsafeContent) := by
  have hne : jsTrim csvData ≠ [] := by
    obtain ⟨c, hc, hw⟩ := matchesDangerous_has_non_ws csvData hm
    exact jsTrim_ne_nil_of_mem csvData c hc hw
  have hne0 : csvData ≠ [] := by
    rintro rfl
    exact hne rfl
  constructor
  · intro h
    simp only [validateCSVData] at h
    split_ifs at h <;> simp_all
  · intro h1 h2 h3
    have g1 : ¬(csvData = [] ∨ jsTrim csvData = []) := by tauto
    have g2 : ¬(15 * 1048576 < csvData.length) := by omega
    have g3 : ¬((splitOn '\n' (jsTrim csvData)).length < 1) := by
      have := splitOn_ne_nil '\n' (jsTrim csvData)
      cases hs : splitOn '\n' (jsTrim csvData) with
      | nil => exact absurd hs this
      | cons a l => simp [hs]
    have g4 : ¬(((splitOn ',' (((splitOn '\n' (jsTrim csvData))).headD [])).map
        jsTrim).length = 0) := by
      have := splitOn_ne_nil ',' (((splitOn '\n' (jsTrim csvData))).headD [])
      simpa using this
    have g5 : ¬(1000 < ((splitOn ',' (((splitOn '\n' (jsTrim csvData))).headD [])).map
        jsTrim).length) := by omega
    have g6 : ¬(200000 < (splitOn '\n' (jsTrim csvData)).length) := by omega
    simp only [validateCSVData, if_neg g1, if_neg g2, if_neg g3, if_neg g4,
      if_neg g5, if_neg g6, if_pos hm]

/-- Witness for `C3_validator_denylist`: a small document containing
`<script` is rejected with the unsafe-content error. -/
theorem C3_validator_denylist_witness :
    matchesDangerous ("a,b\n<script>x".data) = true ∧
    validateCSVData ("a,b\n<script>x".data) = some .unsafeContent := by
  refine ⟨by decide, ?_⟩
  exact (C3_validator_denylist _ (by decide)).2 (by decide) (by decide) (by decide)

/-! ## `detect_outliers`: the z-score test -/

/-- The exact-arithmetic z-score test agrees with the real-number formula
`threshold < |d| / sqrt variance` whenever the threshold is non-negative
(for `variance = 0` both sides are false: the source computes `NaN` there
and `NaN > threshold` is false, while the real formula divides by zero,
yielding `0`). -/
theorem zScoreExceeds_iff (d variance t : ℚ) (hv : 0 ≤ variance) (ht : 0 ≤ t) :
    (zScoreExceeds d variance t = true ↔
      (t : ℝ) < |(d : ℝ)| / Real.sqrt (variance : ℝ)) := by
  by_cases h0 : variance = 0
  · have hz : zScoreExceeds d variance t = false := by simp [zScoreExceeds, h0]
    rw [hz]
    simp only [Bool.false_eq_true, false_iff, not_lt, h0, Rat.cast_zero,
      Real.sqrt_zero, div_zero]
    exact_mod_cast ht
  · have hvpos : (0:ℚ) < variance := lt_of_le_of_ne hv (Ne.symm h0)
    have hvr : (0:ℝ) < (variance:ℝ) := by exact_mod_cast hvpos
    have hsq : 0 < Real.sqrt (variance:ℝ) := Real.sqrt_pos.mpr hvr
    have htr : (0:ℝ) ≤ (t:ℝ) := by exact_mod_cast ht
    rw [show zScoreExceeds d variance t = decide (t ^ 2 * variance < d ^ 2) from by
      unfold zScoreExceeds
      rw [if_neg h0, if_neg (not_lt.mpr ht)]]
    rw [decide_eq_true_eq, lt_div_iff hsq]
    have hcast : (t ^ 2 * variance < d ^ 2) ↔
        ((t:ℝ) ^ 2 * (variance:ℝ) < (d:ℝ) ^ 2) := by
      constructor <;> intro hh <;> exact_mod_cast hh
    rw [hcast]
    constructor
    · intro hlt
      by_contra hab
      push_neg at hab
      have h1 : |(d:ℝ)| * |(d:ℝ)| ≤
          (t * Real.sqrt (variance:ℝ)) * (t * Real.sqrt (variance:ℝ)) :=
        mul_self_le_mul_self (abs_nonneg _) hab
      nlinarith [Real.sq_sqrt hvr.le, sq_abs (d:ℝ)]
    · intro hlt
      have h1 : (t * Real.sqrt (variance:ℝ)) * (t * Real.sqrt (variance:ℝ)) <
          |(d:ℝ)| * |(d:ℝ)| :=
        mul_self_lt_mul_self (mul_nonneg htr (Real.sqrt_nonneg _)) hlt
      nlinarith [Real.sq_sqrt hvr.le, sq_abs (d:ℝ)]

/-- **C8**: a numeric value `v` of the target column is flagged as an
outlier exactly when `abs((v - mean) / stddev) > threshold`, where `mean`
and `stddev` are the population mean and standard deviation over all values
of the column that parse as numbers; on the column `[1,2,3,4,100]`
threshold `1.5` flags exactly the value `100` and threshold `10` flags
none. -/
theorem C8_detect_outliers (headers : List Str) (data : List (List Str))
    (column : Str) (threshold : ℚ) (columnIndex : Nat) (nums : List ℚ)
    (mean variance : ℚ) (ht : 0 ≤ threshold)
    (hc : headers.findIdx? (fun h => h == column) = some columnIndex)
    (hnums : nums = (data.map (fun row => row.getD columnIndex [])).filterMap jsToNumber)
    (hne : nums ≠ [])
    (hmean : mean = nums.sum / (nums.length : ℚ))
    (hvariance : variance = (nums.map (fun b => (b - mean) ^ 2)).sum / (nums.length : ℚ)) :
    (detectOutliers headers data column threshold =
      .report nums.length mean variance
        (nums.filter (fun v => zScoreExceeds (v - mean) variance threshold)) ∧
     ∀ v ∈ nums,
       (v ∈ nums.filter (fun v => zScoreExceeds (v - mean) variance threshold) ↔
         (threshold : ℝ) < |(v : ℝ) - (mean : ℝ)| / Real.sqrt ((variance : ℝ)))) ∧
    detectOutliers [("x".data)]
      [["1".data], ["2".data], ["3".data], ["4".data], ["100".data]]
      ("x".data) (3/2) = .report 5 22 1522 [100] ∧
    detectOutliers [("x".data)]
      [["1".data], ["2".data], ["3".data], ["4".data], ["100".data]]
      ("x".data) 10 = .report 5 22 1522 [] := by
  have hvnn : 0 ≤ variance := by
    rw [hvariance]
    refine div_nonneg (List.sum_nonneg ?_) (by positivity)
    intro x hx
    rcases List.mem_map.mp hx with ⟨b, _, rfl⟩
    exact sq_nonneg _
  refine ⟨⟨?_, ?_⟩, by with_unfolding_all decide, by with_unfolding_all decide⟩
  · have hlen : ¬((data.map (fun row => row.getD columnIndex [])).filterMap
        jsToNumber).length = 0 := by
      rw [← hnums]
      exact fun h => hne (List.length_eq_zero.mp h)
    simp only [detectOutliers, hc, if_neg hlen]
    rw [← hnums, ← hmean, ← hvariance]
  · intro v hv
    rw [List.mem_filter]
    simp only [hv, true_and]
    have := zScoreExceeds_iff (v - mean) variance threshold hvnn ht
    rwa [show |((v - mean : ℚ) : ℝ)| = |(v : ℝ) - (mean : ℝ)| from by push_cast; rfl]
      at this

/-- Witness for `C8_detect_outliers`: the scenario column `[1,2,3,4,100]`
at threshold `3/2`. -/
theorem C8_detect_outliers_witness :
    detectOutliers [("x".data)]
      [["1".data], ["2".data], ["3".data], ["4".data], ["100".data]]
      ("x".data) (3/2) = .report 5 22 1522 [100] :=
  (C8_detect_outliers [("x".data)]
    [["1".data], ["2".data], ["3".data], ["4".data], ["100".data]]
    ("x".data) (3/2) 0 _ _ _ (by norm_num) (by decide) rfl
    (by with_unfolding_all decide) rfl rfl).2.1

/-! ## The serializer/parser round trip -/

/-- Splitting a separator-free string is the identity (one chunk). -/
theorem splitOn_no_sep (sep : Char) (l : Str) (h : sep ∉ l) : splitOn sep l = [l] := by
  induction l with
  | nil => rfl
  | cons c t ih =>
    simp only [List.mem_cons, not_or] at h
    rw [show splitOn sep (c :: t) = match splitOn sep t with
      | [] => [[]]
      | s :: ss => if c = sep then [] :: s :: ss else (c :: s) :: ss from rfl]
    rw [ih h.2]
    show (if c = sep then [] :: t :: ([] : List Str) else (c :: t) :: ([] : List Str)) = [c :: t]
    rw [if_neg (fun q => h.1 q.symm)]

/-- Splitting after a separator-free chunk peels it off. -/
theorem splitOn_append_sep (sep : Char) (l rest : Str) (h : sep ∉ l) :
    splitOn sep (l ++ sep :: rest) = l :: splitOn sep rest := by
  induction l with
  | nil =>
    cases hs : splitOn sep rest with
    | nil => exact absurd hs (splitOn_ne_nil sep rest)
    | cons s ss =>
      simp only [List.nil_append]
      rw [show splitOn sep (sep :: rest) = match splitOn sep rest with
        | [] => [[]]
        | s :: ss => if sep = sep then [] :: s :: ss else (sep :: s) :: ss from rfl]
      rw [hs]
      show (if sep = sep then [] :: s :: ss else (sep :: s) :: ss) = [] :: s :: ss
      rw [if_pos rfl]
  | cons c t ih =>
    simp only [List.mem_cons, not_or] at h
    simp only [List.cons_append]
    rw [show splitOn sep (c :: (t ++ sep :: rest)) = match splitOn sep (t ++ sep :: rest) with
      | [] => [[]]
      | s :: ss => if c = sep then [] :: s :: ss else (c :: s) :: ss from rfl]
    rw [ih h.2]
    show (if c = sep then [] :: t :: splitOn sep rest else (c :: t) :: splitOn sep rest) =
      (c :: t) :: splitOn sep rest
    rw [if_neg (fun q => h.1 q.symm)]

/-- `split` is a left inverse of `join` for a non-empty list of
separator-free chunks. -/
theorem splitOn_joinWith (sep : Char) (ls : List Str) (hne : ls ≠ [])
    (h : ∀ l ∈ ls, sep ∉ l) : splitOn sep (joinWith sep ls) = ls := by
  induction ls with
  | nil => cases hne rfl
  | cons l ls ih =>
    cases ls with
    | nil => exact splitOn_no_sep sep l (h l (by simp))
    | cons l2 ls2 =>
      rw [show joinWith sep (l :: l2 :: ls2) = l ++ sep :: joinWith sep (l2 :: ls2) from rfl]
      rw [splitOn_append_sep sep l _ (h l (by simp))]
      rw [ih (by simp) (fun x hx => h x (by simp [hx]))]

/-- Quote escaping introduces only double quotes. -/
theorem not_mem_escQuote (x : Char) (s : Str) (hx : x ∉ s) (hq : x ≠ '"') :
    x ∉ escQuote s := by
  induction s with
  | nil => simp [escQuote]
  | cons a t ih =>
    simp only [List.mem_cons, not_or] at hx
    by_cases ha : a = '"'
    · simp only [escQuote, if_pos ha, List.mem_cons, not_or]
      exact ⟨hq, hq, ih hx.2⟩
    · simp only [escQuote, if_neg ha, List.mem_cons, not_or]
      exact ⟨hx.1, ih hx.2⟩

/-- Quoting a cell introduces only double quotes. -/
theorem not_mem_quoteCell (x : Char) (s : Str) (hx : x ∉ s) (hq : x ≠ '"') :
    x ∉ quoteCell s := by
  have h1 := not_mem_escQuote x s hx hq
  simp [quoteCell, hq, h1]

/-- Joining keeps a character out when it is neither in the chunks nor the
separator. -/
theorem not_mem_joinWith (x sep : Char) (ls : List Str) (hx : ∀ l ∈ ls, x ∉ l)
    (hsep : x ≠ sep) : x ∉ joinWith sep ls := by
  induction ls with
  | nil => simp [joinWith]
  | cons l ls ih =>
    cases ls with
    | nil => simpa [joinWith] using hx l (by simp)
    | cons l2 ls2 =>
      rw [show joinWith sep (l :: l2 :: ls2) = l ++ sep :: joinWith sep (l2 :: ls2) from rfl]
      simp only [List.mem_append, List.mem_cons, not_or]
      exact ⟨hx l (by simp), hsep, ih (fun m hm => hx m (by simp [hm]))⟩

/-- Concatenating two quote-delimited strings around a separator is
quote-delimited. -/
theorem quoteShape_append (a b : Str) (sep : Char)
    (ha : ∃ m, a = '"' :: (m ++ ['"'])) (hb : ∃ m, b = '"' :: (m ++ ['"'])) :
    ∃ m, a ++ sep :: b = '"' :: (m ++ ['"']) := by
  obtain ⟨m1, rfl⟩ := ha
  obtain ⟨m2, rfl⟩ := hb
  exact ⟨m1 ++ ['"'] ++ sep :: '"' :: m2, by simp⟩

/-- A join of quote-delimited chunks is quote-delimited. -/
theorem joinWith_quoteShape (sep : Char) (ls : List Str) (hne : ls ≠ [])
    (h : ∀ l ∈ ls, ∃ m, l = '"' :: (m ++ ['"'])) :
    ∃ m, joinWith sep ls = '"' :: (m ++ ['"']) := by
  induction ls with
  | nil => cases hne rfl
  | cons l ls ih =>
    cases ls with
    | nil => simpa [joinWith] using h l (by simp)
    | cons l2 ls2 =>
      rw [show joinWith sep (l :: l2 :: ls2) = l ++ sep :: joinWith sep (l2 :: ls2) from rfl]
      exact quoteShape_append _ _ sep (h l (by simp))
        (ih (by simp) (fun x hx => h x (by simp [hx])))

/-- A quote-delimited string is already trimmed. -/
theorem jsTrim_quoteShape (m : Str) :
    jsTrim ('"' :: (m ++ ['"'])) = '"' :: (m ++ ['"']) := by
  have hq : jsWhitespace '"' = false := by decide
  unfold jsTrim
  rw [List.dropWhile_cons, if_neg (by simp [hq])]
  rw [show ('"' :: (m ++ ['"'])).reverse = '"' :: (m.reverse ++ ['"']) from by simp]
  rw [List.dropWhile_cons, if_neg (by simp [hq])]
  simp

/-- Scanning the escaped body of a quoted cell inside quotes appends
exactly the original cell characters to the current field. -/
theorem parseCsvRowGo_escQuote (c : Str) (cur rest : Str) :
    parseCsvRowGo (escQuote c ++ rest) true cur = parseCsvRowGo rest true (cur ++ c) := by
  induction c generalizing cur with
  | nil => simp [escQuote]
  | cons a t ih =>
    by_cases ha : a = '"'
    · subst ha
      rw [show escQuote ('"' :: t) = '"' :: '"' :: escQuote t from by simp [escQuote]]
      rw [List.cons_append, List.cons_append]
      rw [show parseCsvRowGo ('"' :: '"' :: (escQuote t ++ rest)) true cur =
        parseCsvRowGo (escQuote t ++ rest) true (cur ++ ['"']) from by
          simp [parseCsvRowGo]]
      rw [ih]
      simp
    · by_cases hc : a = ','
      · subst hc
        rw [show escQuote (',' :: t) = ',' :: escQuote t from by simp [escQuote]]
        rw [List.cons_append]
        rw [show parseCsvRowGo (',' :: (escQuote t ++ rest)) true cur =
          parseCsvRowGo (escQuote t ++ rest) true (cur ++ [',']) from by
            simp [parseCsvRowGo]]
        rw [ih]
        simp
      · rw [show escQuote (a :: t) = a :: escQuote t from by simp [escQuote, ha]]
        rw [List.cons_append]
        rw [show parseCsvRowGo (a :: (escQuote t ++ rest)) true cur =
          parseCsvRowGo (escQuote t ++ rest) true (cur ++ [a]) from by
            simp [parseCsvRowGo, ha, hc]]
        rw [ih]
        simp

/-- Scanning a single quoted cell at the end of the line pushes the trimmed
cell. -/
theorem parseCsvRowGo_quoteCell_last (c cur : Str) :
    parseCsvRowGo (quoteCell c) false cur = [jsTrim (cur ++ c)] := by
  rw [show quoteCell c = '"' :: (escQuote c ++ ['"']) from rfl]
  rw [show parseCsvRowGo ('"' :: (escQuote c ++ ['"'])) false cur =
    parseCsvRowGo (escQuote c ++ ['"']) true cur from by simp [parseCsvRowGo]]
  rw [parseCsvRowGo_escQuote]
  simp [parseCsvRowGo]

/-- Scanning a quoted cell followed by a comma pushes the trimmed cell and
continues with an empty field. -/
theorem parseCsvRowGo_quoteCell_comma (c cur rest : Str) :
    parseCsvRowGo (quoteCell c ++ ',' :: rest) false cur =
      jsTrim (cur ++ c) :: parseCsvRowGo rest false [] := by
  rw [show quoteCell c ++ ',' :: rest = '"' :: (escQuote c ++ ('"' :: ',' :: rest)) from by
    simp [quoteCell]]
  rw [show parseCsvRowGo ('"' :: (escQuote c ++ ('"' :: ',' :: rest))) false cur =
    parseCsvRowGo (escQuote c ++ ('"' :: ',' :: rest)) true cur from by
      simp [parseCsvRowGo]]
  rw [parseCsvRowGo_escQuote]
  rw [show parseCsvRowGo ('"' :: ',' :: rest) true (cur ++ c) =
    parseCsvRowGo (',' :: rest) false (cur ++ c) from by simp [parseCsvRowGo]]
  simp [parseCsvRowGo]

/-- Parsing a non-empty row of quoted cells recovers the trimmed cells. -/
theorem parseCsvRow_quoted (c : Str) (cs : List Str) :
    parseCsvRow (joinWith ',' ((c :: cs).map quoteCell)) = (c :: cs).map jsTrim := by
  induction cs generalizing c with
  | nil =>
    show parseCsvRowGo (joinWith ',' [quoteCell c]) false [] = [jsTrim c]
    rw [show joinWith ',' [quoteCell c] = quoteCell c from rfl]
    rw [parseCsvRowGo_quoteCell_last]
    rw [List.nil_append]
  | cons c2 cs2 ih =>
    show parseCsvRowGo
      (joinWith ',' (quoteCell c :: quoteCell c2 :: cs2.map quoteCell)) false [] = _
    rw [show joinWith ',' (quoteCell c :: quoteCell c2 :: cs2.map quoteCell) =
      quoteCell c ++ ',' :: joinWith ',' (quoteCell c2 :: cs2.map quoteCell) from rfl]
    rw [parseCsvRowGo_quoteCell_comma]
    rw [List.nil_append]
    exact congrArg (jsTrim c :: ·) (ih c2)

/-- Trimming is the identity on a list of already-trimmed cells. -/
theorem map_jsTrim_id (cells : List Str) (h : ∀ c ∈ cells, jsTrim c = c) :
    cells.map jsTrim = cells := by
  induction cells with
  | nil => rfl
  | cons c t ih => simp [h c (by simp), ih (fun x hx => h x (by simp [hx]))]

/-- **C1** counterexample: `parseCsvRow` trims every field after
unquoting, so a cell with surrounding whitespace (here the header `"a "`)
does not survive the round trip even though it contains no newline. -/
theorem C1_counterexample :
    parseCSV (formatCSV [['a', ' ']] []) ≠ ⟨[['a', ' ']], []⟩ := by decide

/-- **C1** (amended): for every table with a non-empty header list whose
headers and cells are free of embedded newlines and invariant under
trimming, and whose rows all have the header width, parsing the serialized
output returns the original table — commas and double quotes in cells
included. -/
theorem C1_roundtrip (headers : List Str) (rows : List (List Str))
    (hh : headers ≠ [])
    (hhead : ∀ c ∈ headers, jsTrim c = c ∧ ('\n' : Char) ∉ c)
    (hrows : ∀ row ∈ rows, row.length = headers.length ∧
      ∀ c ∈ row, jsTrim c = c ∧ ('\n' : Char) ∉ c) :
    parseCSV (formatCSV headers rows) = ⟨headers, rows⟩ := by
  have hquote : ('\n' : Char) ≠ '"' := by decide
  have hcomma : ('\n' : Char) ≠ ',' := by decide
  -- the serialized lines
  set hline := joinWith ',' (headers.map quoteCell) with hline_def
  set rlines := rows.map (fun r => joinWith ',' (r.map quoteCell)) with rlines_def
  -- each line is quote-delimited
  have hshape : ∀ l ∈ hline :: rlines, ∃ m, l = '"' :: (m ++ ['"']) := by
    intro l hl
    rcases List.mem_cons.mp hl with rfl | hl
    · refine joinWith_quoteShape ',' _ (by simpa using hh) ?_
      intro q hq
      rcases List.mem_map.mp hq with ⟨cell, _, rfl⟩
      exact ⟨escQuote cell, rfl⟩
    · rcases List.mem_map.mp hl with ⟨row, hrow, rfl⟩
      have hrne : row ≠ [] := by
        intro hnil
        have := (hrows row hrow).1
        rw [hnil] at this
        exact hh (List.length_eq_zero.mp this.symm)
      refine joinWith_quoteShape ',' _ (by simpa using hrne) ?_
      intro q hq
      rcases List.mem_map.mp hq with ⟨cell, _, rfl⟩
      exact ⟨escQuote cell, rfl⟩
  -- no line contains a newline
  have hnl : ∀ l ∈ hline :: rlines, ('\n' : Char) ∉ l := by
    intro l hl
    rcases List.mem_cons.mp hl with rfl | hl
    · refine not_mem_joinWith _ _ _ ?_ hcomma
      intro q hq
      rcases List.mem_map.mp hq with ⟨cell, hcell, rfl⟩
      exact not_mem_quoteCell _ _ (hhead cell hcell).2 hquote
    · rcases List.mem_map.mp hl with ⟨row, hrow, rfl⟩
      refine not_mem_joinWith _ _ _ ?_ hcomma
      intro q hq
      rcases List.mem_map.mp hq with ⟨cell, hcell, rfl⟩
      exact not_mem_quoteCell _ _ ((hrows row hrow).2 cell hcell).2 hquote
  -- the whole document is quote-delimited, hence already trimmed
  have hdoc : ∃ m, formatCSV headers rows = '"' :: (m ++ ['"']) := by
    rw [formatCSV, ← hline_def, ← rlines_def]
    exact joinWith_quoteShape '\n' _ (by simp) hshape
  have htrim : jsTrim (formatCSV headers rows) = formatCSV headers rows := by
    obtain ⟨m, hm⟩ := hdoc
    rw [hm]
    exact jsTrim_quoteShape m
  -- splitting recovers the lines
  have hsplit : splitOn '\n' (jsTrim (formatCSV headers rows)) = hline :: rlines := by
    rw [htrim, formatCSV, ← hline_def, ← rlines_def]
    exact splitOn_joinWith '\n' _ (by simp) hnl
  -- the header line parses back to the headers
  have hheader : parseCsvRow hline = headers := by
    cases headers with
    | nil => cases hh rfl
    | cons c cs =>
      rw [hline_def, parseCsvRow_quoted]
      exact map_jsTrim_id _ (fun x hx => (hhead x hx).1)
  -- every data line parses back to its row
  have hdata : rlines.map parseCsvRow = rows := by
    rw [rlines_def, List.map_map]
    have : ∀ row ∈ rows, (parseCsvRow ∘ fun r => joinWith ',' (r.map quoteCell)) row = row := by
      intro row hrow
      cases row with
      | nil =>
        have := (hrows [] hrow).1
        exact absurd this.symm (by simpa using hh)
      | cons c cs =>
        show parseCsvRow (joinWith ',' ((c :: cs).map quoteCell)) = c :: cs
        rw [parseCsvRow_quoted]
        exact map_jsTrim_id _ (fun x hx => ((hrows _ hrow).2 x hx).1)
    calc rows.map (parseCsvRow ∘ fun r => joinWith ',' (r.map quoteCell))
        = rows.map id := List.map_congr_left this
      _ = rows := List.map_id rows
  -- assemble
  rw [parseCSV, hsplit]
  simp only []
  rw [hheader, hdata]
  have hfilter : rows.filter (fun row => row.length == headers.length) = rows := by
    rw [List.filter_eq_self]
    intro row hrow
    simpa using (hrows row hrow).1
  rw [hfilter]

/-- Witness for `C1_roundtrip`: a table whose cells contain a comma and an
embedded double quote. -/
theorem C1_roundtrip_witness :
    parseCSV (formatCSV ["a".data, "b".data] [["1,x".data, "y\"z".data]]) =
      ⟨["a".data, "b".data], [["1,x".data, "y\"z".data]]⟩ :=
  C1_roundtrip ["a".data, "b".data] [["1,x".data, "y\"z".data]]
    (by decide) (by decide) (by decide)

end CsvEngine
